import Mathlib

/-!
Verification development for the web-page content-extraction and
Markdown-conversion pipeline (`html_to_md.py`).

The Python code drives an external browser (Playwright), an external HTML
parser (BeautifulSoup), an external Markdown converter (markdownify) and an
external Readability implementation.  Those libraries are modelled
abstractly: a parsed document (`Soup`) is represented by the results of the
queries the pipeline performs on it (CSS `select_one` lookups, the list of
parsed JSON-LD script bodies, the `<title>` text), an element (`Tag`) by its
attribute map, stripped text content and the attribute maps of its `<img>`
descendants, and the Readability `Document` by the results of the three
calls the code makes on it.  Everything the repository's own code does with
these query results — the dispatch between the WeChat and the generic
handler, the metadata harvest and its priority guards, the JSON-LD walk
(including the uncaught `AttributeError` on a structured-data author list
whose first entry is not an object), the candidate-selector cascade, the
image URL normalization, the YAML front-matter assembly, the scroll
simulation loop, the URL extraction from a batch file and the per-URL main
loop — is translated directly from the source.

Fallible Python code is modelled with `Except PyErr`; an `.error` value
corresponds to an exception that propagates out of `main` uncaught.

In addition to the metadata record the harvesting stages also return a list
of write events (`Event`): which source wrote which field with which value,
in execution order.  The metadata component is exactly the source's
behaviour; the event list is bookkeeping used to state the
monotonic-priority invariant.
-/

/-! ## JSON values (results of `json.loads`) -/

/-- JSON value as produced by `json.loads`; objects are the already
de-duplicated key/value maps Python builds. -/
inductive Json where
  | null : Json
  | bool : Bool → Json
  | num : Int → Json
  | str : String → Json
  | arr : List Json → Json
  | obj : List (String × Json) → Json

/-- Python truthiness of a JSON value (`if value:`). -/
def Json.truthy : Json → Bool
  | .null => false
  | .bool b => b
  | .num n => n != 0
  | .str s => s != ""
  | .arr xs => !xs.isEmpty
  | .obj fs => !fs.isEmpty

/-- `d.get(key)` on a Python dict materialized from a JSON object. -/
def dictGet : List (String × Json) → String → Option Json
  | [], _ => none
  | (k, v) :: rest, key => if k = key then some v else dictGet rest key

/-- Truthiness of `d.get(key)` (missing key yields `None`, which is falsy). -/
def otruthy : Option Json → Bool
  | none => false
  | some v => v.truthy

mutual

/-- Python `repr` of a JSON value (used by `str` for containers). -/
def Json.pyRepr : Json → String
  | .null => "None"
  | .bool true => "True"
  | .bool false => "False"
  | .num n => toString n
  | .str s => "\x27" ++ s ++ "\x27"
  | .arr xs => "[" ++ Json.pyReprSeq xs ++ "]"
  | .obj fs => "\x7b" ++ Json.pyReprFields fs ++ "\x7d"

/-- Comma-separated `repr`s of the elements of a JSON array. -/
def Json.pyReprSeq : List Json → String
  | [] => ""
  | [x] => Json.pyRepr x
  | x :: rest => Json.pyRepr x ++ ", " ++ Json.pyReprSeq rest

/-- Comma-separated `repr`s of the entries of a JSON object. -/
def Json.pyReprFields : List (String × Json) → String
  | [] => ""
  | [(k, v)] => "\x27" ++ k ++ "\x27: " ++ Json.pyRepr v
  | (k, v) :: rest => "\x27" ++ k ++ "\x27: " ++ Json.pyRepr v ++ ", " ++ Json.pyReprFields rest

end

/-- Python `str()` of a JSON value, as used by the f-string that renders a
front-matter line. -/
def Json.pyStr : Json → String
  | .str s => s
  | j => j.pyRepr

/-! ## Python string helpers -/

/-- The whitespace characters stripped by Python's `str.strip()`. -/
def pySpace (c : Char) : Bool :=
  c = ' ' || c = '\t' || c = '\n' || c = '\r' || c = '\x0b' || c = '\x0c'

/-- Python `str.strip()`. -/
def pyStrip (s : String) : String :=
  String.mk (((s.data.dropWhile pySpace).reverse.dropWhile pySpace).reverse)

/-- Substring containment on character lists (Python's `needle in hay`). -/
def listContains (needle : List Char) : List Char → Bool
  | [] => needle.isEmpty
  | c :: rest => needle.isPrefixOf (c :: rest) || listContains needle rest

/-- Python `needle in hay` for strings. -/
def strContains (hay needle : String) : Bool :=
  listContains needle.data hay.data

/-- Python `s.startswith(p)`. -/
def strStartsWith (s p : String) : Bool :=
  p.data.isPrefixOf s.data

/-! ## `urllib.parse.urljoin`, modelled for the reference classes the
pipeline passes it: absolute URLs, scheme-qualified references
(returned unchanged), protocol-relative references, root-relative paths and
path-relative paths.  Dot-segment normalization is not modelled. -/

/-- Characters that may make up a URL scheme. -/
def schemeChar (c : Char) : Bool :=
  c.isAlphanum || c = '+' || c = '-' || c = '.'

/-- Split off a leading `scheme:` if present (mirrors `urlsplit`'s scheme
detection: a leading alphabetic character, scheme characters, then `:`). -/
def splitSchemeList (l : List Char) : Option (List Char × List Char) :=
  let pre := l.takeWhile schemeChar
  match l.drop pre.length with
  | ':' :: r =>
    match pre with
    | c :: _ => if c.isAlpha then some (pre, r) else none
    | [] => none
  | _ => none

/-- Merge a base path with a relative path: drop the last segment of the
base path (everything after the final `/`) and append the reference. -/
def mergePathList (bpath ref : List Char) : List Char :=
  if bpath.isEmpty then '/' :: ref
  else (bpath.reverse.dropWhile (fun c => c ≠ '/')).reverse ++ ref

/-- Characters ending the netloc portion of a URL. -/
def netlocEnd (c : Char) : Bool :=
  c = '/' || c = '?' || c = '#'

/-- Model of `urllib.parse.urljoin` for an absolute `http(s)` base. -/
def urljoin (base url : String) : String :=
  if base.data.isEmpty then url
  else if url.data.isEmpty then base
  else match splitSchemeList url.data with
  | some _ => url
  | none =>
    match splitSchemeList base.data with
    | none => url
    | some (bscheme, brest) =>
      if "//".data.isPrefixOf url.data then
        String.mk (bscheme ++ ':' :: url.data)
      else
        let (bnetloc, bpath) :=
          if "//".data.isPrefixOf brest then
            let r := brest.drop 2
            (r.takeWhile (fun c => !netlocEnd c), r.dropWhile (fun c => !netlocEnd c))
          else ([], brest)
        let npath : List Char :=
          if url.data.head? = some '/' then url.data
          else mergePathList bpath url.data
        String.mk (bscheme ++ ':' :: '/' :: '/' :: (bnetloc ++ npath))

/-! ## DOM model -/

/-- Attribute map of a tag (`tag.attrs`), an insertion-ordered dict. -/
abbrev AttrMap := List (String × String)

/-- `attrs[k]` / `attrs.get(k)` lookup. -/
def aget : AttrMap → String → Option String
  | [], _ => none
  | (k, v) :: rest, key => if k = key then some v else aget rest key

/-- `attrs[k] = v`: replace in place if present, else append. -/
def aset : AttrMap → String → String → AttrMap
  | [], key, v => [(key, v)]
  | (k, w) :: rest, key, v =>
    if k = key then (k, v) :: rest else (k, w) :: aset rest key v

/-- `del attrs[k]`. -/
def adel : AttrMap → String → AttrMap
  | [], _ => []
  | (k, w) :: rest, key => if k = key then adel rest key else (k, w) :: adel rest key

/-- BeautifulSoup `Tag`, abstracted to what the pipeline reads from it:
its attributes, its stripped text (`get_text(strip=True)`), the attribute
maps of its `<img>` descendants, and a serialization of the rest of its
markup (`body`), used when the subtree is handed to the Markdown
converter. -/
structure Element where
  attrs : AttrMap := []
  textContent : String := ""
  imgs : List AttrMap := []
  body : String := ""

/-- A parsed document, abstracted to the queries the pipeline performs:
`select_one` per CSS selector, the parsed body of each
`script[type="application/ld+json"]` (`none` when the script is empty or
`json.loads` fails), and `soup.title.string` (`none` when the title tag is
absent or has no string). -/
structure Soup where
  selectOne : String → Option Element
  jsonLd : List (Option Json) := []
  titleString : Option String := none

/-- The Readability `Document`, abstracted to the three calls made on it;
each `none` models that call raising (caught by the surrounding
`try`/`except`). -/
structure ReadabilityDoc where
  title : Option String := none
  byline : Option String := none
  summary : Option Element := none

/-- A fetched HTML page: the parsed soup plus the Readability view of the
same markup. `readability = none` models `Document(html_content)`
raising. -/
structure Html where
  soup : Soup
  readability : Option ReadabilityDoc := none

/-- The uncaught Python exception the pipeline can raise. -/
inductive PyErr where
  | attributeError : PyErr
deriving DecidableEq

/-! ## Metadata record and write events -/

/-- The five harvested metadata fields. -/
inductive MField where
  | title | author | published | description | site_name
deriving DecidableEq

/-- The metadata dict.  Values are JSON values: head / DOM sources store
strings, JSON-LD may store any JSON value, exactly as the Python dict
does. -/
structure Metadata where
  title : Option Json := none
  author : Option Json := none
  published : Option Json := none
  description : Option Json := none
  site_name : Option Json := none

/-- The empty metadata dict. -/
def emptyMetadata : Metadata := {}

/-- `metadata.get(field)`. -/
def Metadata.get (md : Metadata) : MField → Option Json
  | .title => md.title
  | .author => md.author
  | .published => md.published
  | .description => md.description
  | .site_name => md.site_name

/-- `metadata[field] = v`. -/
def Metadata.set (md : Metadata) : MField → Json → Metadata
  | .title, v => { md with title := some v }
  | .author, v => { md with author := some v }
  | .published, v => { md with published := some v }
  | .description, v => { md with description := some v }
  | .site_name, v => { md with site_name := some v }

/-- The metadata sources, in the spec's priority order. -/
inductive MSource where
  | siteSpecific | jsonLd | headMeta | titleFallback | readabilityFb
deriving DecidableEq

/-- Priority rank of a source; smaller rank = higher priority
(site-specific DOM landmarks > JSON-LD > head meta > title fallback >
Readability fallback). -/
def priorityOf : MSource → Nat
  | .siteSpecific => 0
  | .jsonLd => 1
  | .headMeta => 2
  | .titleFallback => 3
  | .readabilityFb => 4

/-- A metadata write event: which source wrote which field with which
value. -/
structure Event where
  src : MSource
  fld : MField
  val : Json

/-- An earlier event `e` is compatible with a later event `later` when the
later write does not touch a field already set to a truthy value by a
strictly higher-priority source. -/
def eventOK (e later : Event) : Bool :=
  decide (e.fld ≠ later.fld) || !e.val.truthy
    || decide (priorityOf later.src ≤ priorityOf e.src)

/-- Monotonic-priority invariant over a trace of write events: no event is
followed by a write to the same field from a strictly lower-priority
source once the field holds a truthy value. -/
def noLowerAfterHigherB : List Event → Bool
  | [] => true
  | e :: rest => rest.all (eventOK e) && noLowerAfterHigherB rest

/-! ## Metadata harvest: head rules (`_extract_head_metadata`) -/

/-- The extraction rules of `_extract_head_metadata`:
(metadata key, CSS selector, attribute). -/
def headRules : List (MField × String × String) :=
  [(.description, "meta[name=\"description\"]", "content"),
   (.description, "meta[property=\"og:description\"]", "content"),
   (.site_name, "meta[property=\"og:site_name\"]", "content")]

/-- One iteration of the rules loop of `_extract_head_metadata`: if the key
is not already set to a truthy value, look the selector up and store the
stripped attribute value when it is truthy. -/
def headRuleStep (s : Soup) (acc : Metadata × List Event) (rule : MField × String × String) :
    Metadata × List Event :=
  if otruthy (acc.1.get rule.1) then acc
  else
    match s.selectOne rule.2.1 with
    | none => acc
    | some el =>
      match aget el.attrs rule.2.2 with
      | none => acc
      | some v =>
        if v = "" then acc
        else (acc.1.set rule.1 (.str (pyStrip v)),
              acc.2 ++ [⟨.headMeta, rule.1, .str (pyStrip v)⟩])

/-- `_extract_head_metadata`: fold the rules over a fresh metadata dict. -/
def _extract_head_metadata (s : Soup) : Metadata × List Event :=
  headRules.foldl (headRuleStep s) (emptyMetadata, [])

/-! ## WeChat handler (`_process_wechat_html`) -/

/-- The WeChat-specific landmark assignments of `_process_wechat_html`:
unconditional overrides of title, author and publish date. -/
def wechatOverrides (s : Soup) (md : Metadata) : Metadata × List Event :=
  let t : Metadata × List Event :=
    match s.selectOne "h1#activity-name" with
    | some el => (md.set .title (.str el.textContent),
                  [⟨.siteSpecific, .title, .str el.textContent⟩])
    | none => (md, [])
  let a : Metadata × List Event :=
    match s.selectOne "#js_name" with
    | some el => (t.1.set .author (.str el.textContent),
                  t.2 ++ [⟨.siteSpecific, .author, .str el.textContent⟩])
    | none => t
  match s.selectOne "em#publish_time" with
  | some el => (a.1.set .published (.str el.textContent),
                a.2 ++ [⟨.siteSpecific, .published, .str el.textContent⟩])
  | none => a

/-- `_process_wechat_html`: head metadata as base, WeChat landmark
overrides, and the `#js_content` content root. -/
def _process_wechat_html (s : Soup) : Option Element × Metadata × List Event :=
  let h := _extract_head_metadata s
  let w := wechatOverrides s h.1
  (s.selectOne "#js_content", w.1, h.2 ++ w.2)

/-! ## Generic handler (`_process_generic_html`) -/

/-- The guarded `datePublished` extraction from one JSON-LD dict
(`if not metadata.get("published") and item.get("datePublished")`). -/
def jsonLdPub (md : Metadata) (fields : List (String × Json)) : Metadata × List Event :=
  match dictGet fields "datePublished" with
  | some v =>
    if !otruthy (md.get .published) && v.truthy then
      (md.set .published v, [⟨.jsonLd, .published, v⟩])
    else (md, [])
  | none => (md, [])

/-- The guarded `author` extraction from one JSON-LD dict: a dict author
contributes its truthy `name`; a non-empty list author contributes its
first entry's `name` — and raises `AttributeError` (`author_data[0].get`)
when that first entry is not a dict, an exception not in the caught
tuple. -/
def jsonLdAuthor (md : Metadata) (fields : List (String × Json)) :
    Except PyErr (Metadata × List Event) :=
  match dictGet fields "author" with
  | some a =>
    if !otruthy (md.get .author) && a.truthy then
      match a with
      | .obj af =>
        (match dictGet af "name" with
         | some nm =>
           if nm.truthy then .ok (md.set .author nm, [⟨.jsonLd, .author, nm⟩])
           else .ok (md, [])
         | none => .ok (md, []))
      | .arr (x :: _) =>
        (match x with
         | .obj xf =>
           (match dictGet xf "name" with
            | some nm =>
              if nm.truthy then .ok (md.set .author nm, [⟨.jsonLd, .author, nm⟩])
              else .ok (md, [])
            | none => .ok (md, []))
         | _ => .error .attributeError)
      | _ => .ok (md, [])
    else .ok (md, [])
  | none => .ok (md, [])

/-- Processing of one JSON-LD item (one member of the structured-data
block): non-dict items are skipped, dict items run the guarded
`datePublished` and `author` extractions in order. -/
def jsonLdItem (md : Metadata) (item : Json) : Except PyErr (Metadata × List Event) :=
  match item with
  | .obj fields =>
    let step1 := jsonLdPub md fields
    match jsonLdAuthor step1.1 fields with
    | .ok r => .ok (r.1, step1.2 ++ r.2)
    | .error e => .error e
  | _ => .ok (md, [])

/-- The item loop over the members of one JSON-LD block. -/
def jsonLdItems (md : Metadata) : List Json → Except PyErr (Metadata × List Event)
  | [] => .ok (md, [])
  | item :: rest =>
    match jsonLdItem md item with
    | .error e => .error e
    | .ok r =>
      match jsonLdItems r.1 rest with
      | .error e => .error e
      | .ok r2 => .ok (r2.1, r.2 ++ r2.2)

/-- Processing of one `application/ld+json` script: `none` covers the empty
`script.string` and the `json.JSONDecodeError` cases, both skipped; a
parsed value is normalized to a list of items exactly as the source does
(`list` extended, `dict` appended, anything else ignored). -/
def jsonLdScript (md : Metadata) : Option Json → Except PyErr (Metadata × List Event)
  | none => .ok (md, [])
  | some j =>
    let items := match j with
      | .arr xs => xs
      | .obj fs => [Json.obj fs]
      | _ => []
    jsonLdItems md items

/-- The script loop over all JSON-LD blocks. -/
def jsonLdScripts (md : Metadata) : List (Option Json) → Except PyErr (Metadata × List Event)
  | [] => .ok (md, [])
  | sc :: rest =>
    match jsonLdScript md sc with
    | .error e => .error e
    | .ok r =>
      match jsonLdScripts r.1 rest with
      | .error e => .error e
      | .ok r2 => .ok (r2.1, r.2 ++ r2.2)

/-- The fixed candidate selector list of strategy 2. -/
def candidateSelectors : List String :=
  ["article", "main", "#content", "#main-content", "#main",
   ".post-body", ".entry-content", ".article-body"]

/-- The candidate loop: first selector with a match wins. -/
def firstCandidate (s : Soup) : Option Element :=
  candidateSelectors.findSome? s.selectOne

/-- The `<title>`-tag fallback executed when a candidate selector matched:
set the title only when it is not already set and the title tag has a
truthy string. -/
def titleFallbackStep (s : Soup) (md : Metadata) : Metadata × List Event :=
  match s.titleString with
  | some t =>
    if !otruthy (md.get .title) && !(t == "") then
      (md.set .title (.str (pyStrip t)), [⟨.titleFallback, .title, .str (pyStrip t)⟩])
    else (md, [])
  | none => (md, [])

/-- The tail of the Readability stage after `doc.title()` has been handled:
the guarded `byline` assignment followed by `doc.summary()`; a raising
`summary` (modelled `none`) is caught, leaving the content element unset
but keeping the metadata written so far. -/
def readabilityTail (doc : ReadabilityDoc) (md : Metadata) (ev : List Event) :
    Option Element × Metadata × List Event :=
  let step : Metadata × List Event :=
    if !otruthy (md.get .author) then
      (md.set .author (.str (doc.byline.getD "")),
       ev ++ [⟨.readabilityFb, .author, .str (doc.byline.getD "")⟩])
    else (md, ev)
  match doc.summary with
  | none => (none, step.1, step.2)
  | some el => (some el, step.1, step.2)

/-- Strategy 3, the Readability fallback: `Document(html_content)` raising
is modelled by `readability = none`; a raising `doc.title()` (modelled
`none`) aborts the stage after no assignment; otherwise the guarded title
and byline assignments run and `doc.summary()` decides the content
element. -/
def readabilityStage (p : Html) (md : Metadata) : Option Element × Metadata × List Event :=
  match p.readability with
  | none => (none, md, [])
  | some doc =>
    if !otruthy (md.get .title) then
      match doc.title with
      | none => (none, md, [])
      | some t =>
        readabilityTail doc (md.set .title (.str t)) [⟨.readabilityFb, .title, .str t⟩]
    else readabilityTail doc md []

/-- `_process_generic_html`: head metadata, then the JSON-LD pass, then the
candidate selector cascade, then the Readability fallback. -/
def _process_generic_html (p : Html) : Except PyErr (Option Element × Metadata × List Event) :=
  let h := _extract_head_metadata p.soup
  match jsonLdScripts h.1 p.soup.jsonLd with
  | .error e => .error e
  | .ok (md1, ev1) =>
    match firstCandidate p.soup with
    | some el =>
      let t := titleFallbackStep p.soup md1
      .ok (some el, t.1, h.2 ++ ev1 ++ t.2)
    | none =>
      let r := readabilityStage p md1
      .ok (r.1, r.2.1, h.2 ++ ev1 ++ r.2.2)

/-! ## Image post-processing (`_post_process_content`) -/

/-- Step 1 of `_post_process_content` for a single `<img>`: promote
`data-src` (or, failing that, `data-original`) into `src`, deleting the
promoted attribute. -/
def promoteLazyAttrs (img : AttrMap) : AttrMap :=
  match aget img "data-src" with
  | some v => adel (aset img "src" v) "data-src"
  | none =>
    match aget img "data-original" with
    | some v => adel (aset img "src" v) "data-original"
    | none => img

/-- Step 2 of `_post_process_content` for a single `<img>`: resolve a
`src` that does not start with `http://` or `https://` against the page
URL. -/
def absolutizeSrc (url : String) (img : AttrMap) : AttrMap :=
  match aget img "src" with
  | none => img
  | some sv =>
    if strStartsWith sv "http://" || strStartsWith sv "https://" then img
    else aset img "src" (urljoin url sv)

/-- Normalization of a single `<img>`: lazy-attribute promotion followed
by `src` absolutization. -/
def postProcessImg (url : String) (img : AttrMap) : AttrMap :=
  absolutizeSrc url (promoteLazyAttrs img)

/-- `_post_process_content`: normalize every `<img>` of the extracted
subtree in place. -/
def _post_process_content (el : Element) (url : String) : Element :=
  { el with imgs := el.imgs.map (postProcessImg url) }

/-! ## Conversion dispatch (`convert_html_to_markdown`) -/

/-- The platform domain checked by the dispatch. -/
def wechatDomain : String := "mp.weixin.qq.com"

/-- The dispatch of `convert_html_to_markdown`: the WeChat handler for URLs
containing the platform domain, the generic handler otherwise; returns the
content element, the metadata and the write-event trace. -/
def convertCore (p : Html) (url : String) :
    Except PyErr (Option Element × Metadata × List Event) :=
  if strContains url wechatDomain then .ok (_process_wechat_html p.soup)
  else _process_generic_html p

/-- Serialization of an `<img>` tag's attributes (part of
`str(content_element)`). -/
def renderImg (m : AttrMap) : String :=
  "<img" ++ String.join ((m : List (String × String)).map
    (fun kv => " " ++ kv.1 ++ "=\"" ++ kv.2 ++ "\"")) ++ ">"

/-- `str(content_element)`: the element's non-image markup followed by its
image tags. -/
def strElement (e : Element) : String :=
  e.body ++ String.join (e.imgs.map renderImg)

/-- The third-party `markdownify` converter (ATX headings, `<a>` stripped),
modelled abstractly as a deterministic function of the serialized
markup. -/
def markdownify (html : String) : String := html

/-- `convert_html_to_markdown`: dispatch, failure when no content element
was found, image normalization, Markdown conversion.  `.ok none` is the
source's `None` return; `.error` is an uncaught exception. -/
def convert_html_to_markdown (p : Html) (url : String) :
    Except PyErr (Option (String × Metadata)) :=
  match convertCore p url with
  | .error e => .error e
  | .ok (content, md, _ev) =>
    match content with
    | none => .ok none
    | some el => .ok (some (markdownify (strElement (_post_process_content el url)), md))

/-! ## Front matter and document assembly (`_create_front_matter`, `main`) -/

/-- The summary placeholder inserted between front matter and body. -/
def SUMMARY_TEMPLATE : String := "\n# 总结提炼\n\n\n\n---\n\n"

/-- `metadata.get(field, "")` rendered by the front-matter f-string. -/
def fmValue (md : Metadata) (f : MField) : String :=
  match md.get f with
  | some v => v.pyStr
  | none => ""

/-- The `front_matter_data` dict of `_create_front_matter`, in insertion
order; `now` is the ISO timestamp captured at assembly time. -/
def frontMatterData (md : Metadata) (url now : String) : List (String × String) :=
  [("note_type", "文献笔记"),
   ("content_type", "新闻报道"),
   ("created", now),
   ("published", fmValue md .published),
   ("source", url),
   ("author", fmValue md .author),
   ("description", fmValue md .description),
   ("site_name", fmValue md .site_name)]

/-- `_create_front_matter`: `---`, one `key: value` line per entry,
`---`, joined with newlines. -/
def _create_front_matter (md : Metadata) (url now : String) : String :=
  String.intercalate "\n"
    (["---"] ++ (frontMatterData md url now).map (fun kv => kv.1 ++ ": " ++ kv.2) ++ ["---"])

/-- The final file content assembled by `main`:
`f"{front_matter}{SUMMARY_TEMPLATE}{markdown_text}"`. -/
def assembleDocument (frontMatter body : String) : String :=
  frontMatter ++ SUMMARY_TEMPLATE ++ body

/-! ## Output path resolution (`save_to_file`) -/

/-- The characters removed by the filename sanitization regex
`[\\/*?:"<>|]`. -/
def illegalFilenameChar (c : Char) : Bool :=
  c = '\\' || c = '/' || c = '*' || c = '?' || c = ':' || c = '"' || c = '<' || c = '>' || c = '|'

/-- `re.sub(r'[\\/*?:"<>|]', "", str(page_title)).strip() + ".md"`. -/
def sanitizedTitleFilename (pageTitle : String) : String :=
  pyStrip (String.mk (pageTitle.data.filter (fun c => !illegalFilenameChar c))) ++ ".md"

/-- `os.path.join` as used on a directory plus a bare filename. -/
def joinPath (dir fn : String) : String :=
  if strStartsWith dir "/" && dir.data.getLast? = some '/' then dir ++ fn
  else if dir.data.getLast? = some '/' || dir.data.getLast? = some '\\' then dir ++ fn
  else dir ++ "/" ++ fn

/-- The output-path resolution of `save_to_file`.  `isDir` models the
`os.path.isdir` query against the filesystem.  A bare filename (the
no-`-o` case) is written relative to the current working directory. -/
def outputPathOf (isDir : String → Bool) (userSpecifiedPath : Option String)
    (pageTitle : String) : String :=
  let fn := sanitizedTitleFilename pageTitle
  match userSpecifiedPath with
  | some p =>
    if isDir p || strStartsWith (String.mk p.data.reverse) "/"
        || strStartsWith (String.mk p.data.reverse) "\\" then joinPath p fn
    else p
  | none => fn

/-- The title handed to `save_to_file` by `main`:
`metadata.get("title", "Untitled")`, rendered by `str()`. -/
def pageTitleArg (md : Metadata) : String :=
  ((md.get .title).getD (.str "Untitled")).pyStr

/-! ## Scroll simulation (`fetch_html_from_url`, injected JS loop) -/

/-- The page's reaction to one `window.scrollBy(0, 100)` plus its viewport
and document heights: `step y` is the value of `window.scrollY` after the
scroll when it was `y` before. -/
structure ScrollPage where
  step : Nat → Nat
  innerHeight : Nat
  scrollHeight : Nat

/-- The injected scroll loop: at most 100 scrolls, a stall counter that
resets whenever the position moves and exits the loop at 5, and an early
exit at the document bottom.  Returns the number of scroll iterations
performed. -/
def scrollLoop (pg : ScrollPage) (scrolls stuck y : Nat) : Nat :=
  if h : scrolls < 100 ∧ stuck < 5 then
    let y2 := pg.step y
    let scrolls2 := scrolls + 1
    let stuck2 := if y2 = y then stuck + 1 else 0
    if pg.scrollHeight ≤ y2 + pg.innerHeight then scrolls2
    else scrollLoop pg scrolls2 stuck2 y2
  else scrolls
termination_by 100 - scrolls
decreasing_by omega

/-- The scroll simulation started from scroll position `y0`. -/
def scrollSimulation (pg : ScrollPage) (y0 : Nat) : Nat :=
  scrollLoop pg 0 0 y0

/-! ## URL extraction from a batch file (`_extract_urls_from_file`) -/

/-- A character matched by `[^\s<>"]`. -/
def urlBodyChar (c : Char) : Bool :=
  !(pySpace c || c = '<' || c = '>' || c = '"')

/-- Match a literal prefix, returning the remainder of the input. -/
def dropLiteral : List Char → List Char → Option (List Char)
  | [], l => some l
  | _ :: _, [] => none
  | p :: ps, c :: cs => if c = p then dropLiteral ps cs else none

/-- Try one alternative of the URL regex at the current position: the
literal prefix followed by a non-empty greedy run of `[^\s<>"]`. -/
def tryUrlAlternative (p : String) (l : List Char) : Option (String × List Char) :=
  match dropLiteral p.data l with
  | none => none
  | some rest =>
    let body := rest.takeWhile urlBodyChar
    if body.isEmpty then none
    else some (String.mk (p.data ++ body), rest.dropWhile urlBodyChar)

/-- Match `https?://[^\s<>"]+|www\.[^\s<>"]+` at the current position
(greedy optional `s`, first alternative preferred). -/
def matchUrlAt (l : List Char) : Option (String × List Char) :=
  match tryUrlAlternative "https://" l with
  | some r => some r
  | none =>
    match tryUrlAlternative "http://" l with
    | some r => some r
    | none => tryUrlAlternative "www." l

/-- The scan of `re.findall` over the file content: try a match at every
position, skipping one character when no alternative matches, resuming
after the match otherwise (non-overlapping matches).  The structural fuel
starts at the input length; every step consumes at least one character and
one unit of fuel, so the fuel never runs out before the scan ends. -/
def findallUrlsAux : Nat → List Char → List String
  | 0, _ => []
  | fuel + 1, l =>
    match matchUrlAt l with
    | some (m, rem) => m :: findallUrlsAux fuel rem
    | none =>
      match l with
      | [] => []
      | _ :: rest => findallUrlsAux fuel rest

/-- The full `re.findall` scan. -/
def findallUrls (l : List Char) : List String :=
  findallUrlsAux l.length l

/-- `_extract_urls_from_file` on the file's text: regex scan, then
`list(set(urls))`.  Python's set iteration order is unspecified; `dedup`
models one admissible order (the claim and the spec promise no order). -/
def _extract_urls_from_file (content : String) : List String :=
  (findallUrls content.data).dedup

/-! ## The batch loop of `main` -/

/-- The per-URL loop of `main`.  `fetched` pairs each URL of the batch with
the result of `fetch_html_from_url` (which catches all its own exceptions
and returns `None` on failure); `clock` supplies the timestamp
`datetime.now().isoformat()` observed at the i-th iteration; `isDir`
models `os.path.isdir`.  A fetch failure or a `None` conversion result
skips the URL; an uncaught exception aborts the whole run (`.error`).
Returns the (path, content) pairs written. -/
def mainBatchLoop (clock : Nat → String) (isDir : String → Bool) (outputArg : Option String) :
    Nat → List (String × Option Html) → Except PyErr (List (String × String))
  | _, [] => .ok []
  | i, (url, fetched) :: rest =>
    match fetched with
    | none => mainBatchLoop clock isDir outputArg (i + 1) rest
    | some page =>
      match convert_html_to_markdown page url with
      | .error e => .error e
      | .ok none => mainBatchLoop clock isDir outputArg (i + 1) rest
      | .ok (some (markdownText, md)) =>
        let frontMatter := _create_front_matter md url (clock i)
        let finalContent := assembleDocument frontMatter markdownText
        let path := outputPathOf isDir outputArg (pageTitleArg md)
        match mainBatchLoop clock isDir outputArg (i + 1) rest with
        | .error e => .error e
        | .ok files => .ok ((path, finalContent) :: files)

/-! ## Concrete inputs used by the claim theorems -/

/-- A generic article element matched by the `article` candidate
selector. -/
def c1Article : Element := { body := "<p>generic content</p>" }

/-- A WeChat-URL page whose markup has no `#js_content` root but does have
an `article` element the generic cascade would find. -/
def c1Soup : Soup := { selectOne := fun sel => if sel = "article" then some c1Article else none }

/-- The page wrapping `c1Soup`. -/
def c1Page : Html := { soup := c1Soup }

/-- A WeChat article URL. -/
def c1Url : String := "https://mp.weixin.qq.com/s/abc"

/-- A page whose only JSON-LD block carries an author list whose first
entry is a plain string — the shape that raises `AttributeError` in
`_process_generic_html`. -/
def c2BadSoup : Soup :=
  { selectOne := fun _ => none,
    jsonLd := [some (.obj [("author", .arr [.str "Alice"])])] }

/-- The page wrapping `c2BadSoup`. -/
def c2BadPage : Html := { soup := c2BadSoup }

/-- The URL of the failing page. -/
def c2BadUrl : String := "https://bad.example.com/b"

/-- A well-behaved article element. -/
def c2GoodElement : Element := { body := "<p>good</p>" }

/-- A page the pipeline converts successfully. -/
def c2GoodSoup : Soup :=
  { selectOne := fun sel => if sel = "article" then some c2GoodElement else none,
    titleString := some "Good" }

/-- The page wrapping `c2GoodSoup`. -/
def c2GoodPage : Html := { soup := c2GoodSoup }

/-- The URL of the well-behaved page. -/
def c2GoodUrl : String := "https://good.example.com/a"

/-- A fixed assembly timestamp. -/
def c2Clock : Nat → String := fun _ => "2026-01-01T00:00:00"

/-- A filesystem on which no path is a directory. -/
def c2IsDir : String → Bool := fun _ => false

/-- The document written for the well-behaved page. -/
def c2GoodContent : String :=
  "---\nnote_type: 文献笔记\ncontent_type: 新闻报道\ncreated: 2026-01-01T00:00:00\npublished: \nsource: https://good.example.com/a\nauthor: \ndescription: \nsite_name: \n---\n# 总结提炼\n\n\n\n---\n\n<p>good</p>"

/-- A head `og:site_name` meta element. -/
def c3MetaEl : Element := { attrs := [("content", "Example")] }

/-- A page whose only metadata source is an `og:site_name` head tag. -/
def c3Soup : Soup :=
  { selectOne := fun sel => if sel = "meta[property=\"og:site_name\"]" then some c3MetaEl else none }

/-- The page wrapping `c3Soup`. -/
def c3Page : Html := { soup := c3Soup }

/-- The URL of `c3Page`. -/
def c3Url : String := "https://example.com/x"

/-- The write-event trace the harvest produces on `c3Page`. -/
def c3Trace : List Event := [⟨.headMeta, .site_name, .str "Example"⟩]

/-- The metadata record the harvest produces on `c3Page`. -/
def c3Md : Metadata := { site_name := some (.str "Example") }

/-- The lazy-loaded image of the spec's normalization scenario. -/
def c4Img : AttrMap := [("data-src", "/img/a.png")]

/-- The page URL of the spec's normalization scenario. -/
def c4Url : String := "https://ex.com/post"

/-- A page with no content at all (conversion fails but is deterministic). -/
def c5Page : Html := { soup := { selectOne := fun _ => none } }

/-- The URL used for the determinism witness. -/
def c5Url : String := "https://example.com/y"

/-- A batch file containing the same URL twice. -/
def c6File : String := "https://a.com/x\nhttps://a.com/x"

/-- A page whose scroll position never changes. -/
def c8Page : ScrollPage := { step := fun y => y, innerHeight := 10, scrollHeight := 1000 }

/-- An image carrying both lazy-load attributes plus a placeholder
`src`. -/
def c10Img : AttrMap :=
  [("src", "placeholder.gif"), ("data-src", "//cdn.ex.com/a.png"), ("data-original", "/b.png")]

/-- The page URL for the double-lazy-attribute witness. -/
def c10Url : String := "https://ex.com/post"

/-- An element matched by the `main` candidate selector. -/
def c7Element : Element := { body := "<p>c7</p>" }

/-- A page with a `main` landmark and no metadata at all. -/
def c7Soup : Soup := { selectOne := fun sel => if sel = "main" then some c7Element else none }

/-- The page wrapping `c7Soup`. -/
def c7Page : Html := { soup := c7Soup }

/-- The URL of `c7Page`. -/
def c7Url : String := "https://ex7.com/a"

/-- Content root delivered by the Readability fallback as described by the
amended C1: `none` when `Document(...)` or `doc.title()` raises, otherwise
`doc.summary()` (itself `none` when raising).  Stated from the amended
claim's words, to be compared with the embedding. -/
def genericFallbackContent (p : Html) : Option Element :=
  match p.readability with
  | none => none
  | some doc =>
    match doc.title with
    | none => none
    | some _ => doc.summary

/-- Shape invariant of the JSON-LD pass running from `md` to `md2` while
emitting the write events `Δ`: events are JSON-LD writes of truthy
published/author values, truthy fields are never overwritten, the fields
the pass cannot touch are unchanged, and an emitted write leaves its field
truthy at the end of the pass. -/
def JsonLdInv (md md2 : Metadata) (Δ : List Event) : Prop :=
  (∀ e ∈ Δ, e.src = MSource.jsonLd ∧ (e.fld = MField.published ∨ e.fld = MField.author) ∧
    e.val.truthy = true) ∧
  (∀ f, otruthy (md.get f) = true → md2.get f = md.get f) ∧
  (md2.get .title = md.get .title ∧ md2.get .description = md.get .description ∧
    md2.get .site_name = md.get .site_name) ∧
  ((∃ e ∈ Δ, e.fld = MField.author) → otruthy (md2.get .author) = true) ∧
  ((∃ e ∈ Δ, e.fld = MField.published) → otruthy (md2.get .published) = true)

/-- Shape invariant of the head-metadata accumulator: only head writes of
description / site_name, and the fields the head pass cannot set are still
unset. -/
def HeadAcc (acc : Metadata × List Event) : Prop :=
  (∀ e ∈ acc.2, e.src = MSource.headMeta ∧
    (e.fld = MField.description ∨ e.fld = MField.site_name)) ∧
  acc.1.get .title = none ∧ acc.1.get .author = none ∧ acc.1.get .published = none

/-! ## Helper lemmas: attribute maps and metadata records -/

theorem aget_aset_self (m : AttrMap) (k v : String) : aget (aset m k v) k = some v := by
  induction m with
  | nil => simp [aset, aget]
  | cons kv rest ih =>
    by_cases h : kv.1 = k
    · simp [aset, aget, h]
    · simp [aset, aget, h, ih]

theorem aget_aset_ne (m : AttrMap) (k k2 v : String) (h : k2 ≠ k) :
    aget (aset m k v) k2 = aget m k2 := by
  induction m with
  | nil => simp [aset, aget, h, Ne.symm h]
  | cons kv rest ih =>
    by_cases hk : kv.1 = k
    · subst hk
      simp [aset, aget, Ne.symm h]
    · by_cases hk2 : kv.1 = k2
      · simp [aset, aget, hk, hk2, h]
      · simp [aset, aget, hk, hk2, ih]

theorem aget_adel_self (m : AttrMap) (k : String) : aget (adel m k) k = none := by
  induction m with
  | nil => simp [adel, aget]
  | cons kv rest ih =>
    by_cases h : kv.1 = k
    · simp [adel, aget, h, ih]
    · simp [adel, aget, h, ih]

theorem aget_adel_ne (m : AttrMap) (k k2 : String) (h : k2 ≠ k) :
    aget (adel m k) k2 = aget m k2 := by
  induction m with
  | nil => simp [adel, aget]
  | cons kv rest ih =>
    by_cases hk : kv.1 = k
    · subst hk
      simp [adel, aget, Ne.symm h, ih]
    · by_cases hk2 : kv.1 = k2
      · simp [adel, aget, hk, hk2, h, ih]
      · simp [adel, aget, hk, hk2, ih]

theorem metadata_get_set (md : Metadata) (f g : MField) (v : Json) :
    (md.set f v).get g = if g = f then some v else md.get g := by
  cases f <;> cases g <;> simp [Metadata.get, Metadata.set]

/-! ## Helper lemmas: urljoin -/

theorem splitSchemeList_http (t : List Char) :
    splitSchemeList ('h' :: 't' :: 't' :: 'p' :: ':' :: t) = some (['h', 't', 't', 'p'], t) := rfl

theorem splitSchemeList_https (t : List Char) :
    splitSchemeList ('h' :: 't' :: 't' :: 'p' :: 's' :: ':' :: t) =
      some (['h', 't', 't', 'p', 's'], t) := rfl

/-- An `http(s)://` reference is returned unchanged by `urljoin`. -/
theorem urljoin_of_absolute (base v : String)
    (h : (strStartsWith v "http://" || strStartsWith v "https://") = true) :
    urljoin base v = v := by
  rw [Bool.or_eq_true] at h
  by_cases hb : base.data.isEmpty
  · unfold urljoin
    rw [if_pos hb]
  · obtain h1 | h1 := h
    · obtain ⟨t, ht⟩ := List.isPrefixOf_iff_prefix.mp h1
      have hr : splitSchemeList v.data = some (['h', 't', 't', 'p'], '/' :: '/' :: t) := by
        rw [← ht]; exact splitSchemeList_http ('/' :: '/' :: t)
      have hne : ¬(v.data.isEmpty = true) := by
        rw [← ht]; simp
      unfold urljoin
      rw [if_neg hb, if_neg hne, hr]
    · obtain ⟨t, ht⟩ := List.isPrefixOf_iff_prefix.mp h1
      have hr : splitSchemeList v.data = some (['h', 't', 't', 'p', 's'], '/' :: '/' :: t) := by
        rw [← ht]; exact splitSchemeList_https ('/' :: '/' :: t)
      have hne : ¬(v.data.isEmpty = true) := by
        rw [← ht]; simp
      unfold urljoin
      rw [if_neg hb, if_neg hne, hr]

/-- A reference with no scheme prefix does not start with `http(s)://`. -/
theorem relative_not_absolute (v : String) (hn : splitSchemeList v.data = none) :
    (strStartsWith v "http://" || strStartsWith v "https://") = false := by
  cases hB : (strStartsWith v "http://" || strStartsWith v "https://") with
  | false => rfl
  | true =>
    exfalso
    rw [Bool.or_eq_true] at hB
    obtain h1 | h1 := hB
    · obtain ⟨t, ht⟩ := List.isPrefixOf_iff_prefix.mp h1
      have h2 : splitSchemeList v.data = some (['h', 't', 't', 'p'], '/' :: '/' :: t) := by
        rw [← ht]; exact splitSchemeList_http ('/' :: '/' :: t)
      rw [hn] at h2
      exact absurd h2 (by simp)
    · obtain ⟨t, ht⟩ := List.isPrefixOf_iff_prefix.mp h1
      have h2 : splitSchemeList v.data = some (['h', 't', 't', 'p', 's'], '/' :: '/' :: t) := by
        rw [← ht]; exact splitSchemeList_https ('/' :: '/' :: t)
      rw [hn] at h2
      exact absurd h2 (by simp)

/-! ## Helper lemmas: image normalization -/

/-- The absolutization step turns any present `src` into its join with the
page URL (for an already absolute `src` the join is the identity). -/
theorem absolutizeSrc_src (url : String) (m : AttrMap) (v : String)
    (h : aget m "src" = some v) :
    aget (absolutizeSrc url m) "src" = some (urljoin url v) := by
  simp only [absolutizeSrc, h]
  by_cases habs : (strStartsWith v "http://" || strStartsWith v "https://") = true
  · rw [if_pos habs, h, urljoin_of_absolute url v habs]
  · rw [if_neg habs, aget_aset_self]

/-- The absolutization step touches no attribute other than `src`. -/
theorem absolutizeSrc_other (url : String) (m : AttrMap) (k : String) (h : k ≠ "src") :
    aget (absolutizeSrc url m) k = aget m k := by
  cases hs : aget m "src" with
  | none => simp only [absolutizeSrc, hs]
  | some sv =>
    simp only [absolutizeSrc, hs]
    split
    · rfl
    · rw [aget_aset_ne _ _ _ _ h]

/-- Lazy-attribute promotion: a present `data-src` lands in `src`. -/
theorem promote_datasrc (img : AttrMap) (v : String) (h : aget img "data-src" = some v) :
    aget (promoteLazyAttrs img) "src" = some v := by
  simp only [promoteLazyAttrs, h]
  rw [aget_adel_ne _ _ _ (by decide), aget_aset_self]

/-- Lazy-attribute promotion: with no `data-src`, a present `data-original`
lands in `src`. -/
theorem promote_dataoriginal (img : AttrMap) (v : String)
    (h0 : aget img "data-src" = none) (h : aget img "data-original" = some v) :
    aget (promoteLazyAttrs img) "src" = some v := by
  simp only [promoteLazyAttrs, h0, h]
  rw [aget_adel_ne _ _ _ (by decide), aget_aset_self]

/-- Lazy-attribute promotion is the identity without lazy attributes. -/
theorem promote_id (img : AttrMap)
    (h0 : aget img "data-src" = none) (h1 : aget img "data-original" = none) :
    promoteLazyAttrs img = img := by
  simp only [promoteLazyAttrs, h0, h1]

/-! ## Helper lemmas: the JSON-LD pass -/

theorem bnot_true {b : Bool} (h : (!b) = true) : b = false := by
  cases b
  · rfl
  · exact absurd h (by simp)

theorem jsonLdInv_refl (md : Metadata) : JsonLdInv md md [] := by
  refine ⟨by simp, fun f _ => rfl, ⟨rfl, rfl, rfl⟩, by simp, by simp⟩

theorem jsonLdInv_comp (md md1 md2 : Metadata) (d1 d2 : List Event)
    (h1 : JsonLdInv md md1 d1) (h2 : JsonLdInv md1 md2 d2) :
    JsonLdInv md md2 (d1 ++ d2) := by
  obtain ⟨e1, p1, u1, a1, pb1⟩ := h1
  obtain ⟨e2, p2, u2, a2, pb2⟩ := h2
  refine ⟨?_, ?_, ?_, ?_, ?_⟩
  · intro e he
    rw [List.mem_append] at he
    rcases he with he | he
    · exact e1 e he
    · exact e2 e he
  · intro f hf
    have hmid := p1 f hf
    have hmid2 : otruthy (md1.get f) = true := by rw [hmid]; exact hf
    rw [p2 f hmid2, hmid]
  · exact ⟨u2.1.trans u1.1, u2.2.1.trans u1.2.1, u2.2.2.trans u1.2.2⟩
  · rintro ⟨e, he, hf⟩
    rw [List.mem_append] at he
    rcases he with he | he
    · have h1a : otruthy (md1.get .author) = true := a1 ⟨e, he, hf⟩
      rw [p2 .author h1a]
      exact h1a
    · exact a2 ⟨e, he, hf⟩
  · rintro ⟨e, he, hf⟩
    rw [List.mem_append] at he
    rcases he with he | he
    · have h1p : otruthy (md1.get .published) = true := pb1 ⟨e, he, hf⟩
      rw [p2 .published h1p]
      exact h1p
    · exact pb2 ⟨e, he, hf⟩

theorem jsonLdInv_pub (md : Metadata) (v : Json) (hv : v.truthy = true)
    (hp : otruthy (md.get .published) = false) :
    JsonLdInv md (md.set .published v) [⟨.jsonLd, .published, v⟩] := by
  refine ⟨?_, ?_, ?_, ?_, ?_⟩
  · intro e he
    simp at he
    subst he
    exact ⟨rfl, Or.inl rfl, hv⟩
  · intro f hf
    by_cases hfp : f = MField.published
    · subst hfp
      rw [hf] at hp
      exact absurd hp (by simp)
    · simp [metadata_get_set, hfp]
  · refine ⟨?_, ?_, ?_⟩ <;> simp [metadata_get_set]
  · rintro ⟨e, he, hf⟩
    simp at he
    subst he
    exact absurd hf (by simp)
  · rintro ⟨e, he, hf⟩
    simp [metadata_get_set, otruthy, hv]
  
theorem jsonLdInv_auth (md : Metadata) (nm : Json) (hnm : nm.truthy = true)
    (ha : otruthy (md.get .author) = false) :
    JsonLdInv md (md.set .author nm) [⟨.jsonLd, .author, nm⟩] := by
  refine ⟨?_, ?_, ?_, ?_, ?_⟩
  · intro e he
    simp at he
    subst he
    exact ⟨rfl, Or.inr rfl, hnm⟩
  · intro f hf
    by_cases hfa : f = MField.author
    · subst hfa
      rw [hf] at ha
      exact absurd ha (by simp)
    · simp [metadata_get_set, hfa]
  · refine ⟨?_, ?_, ?_⟩ <;> simp [metadata_get_set]
  · rintro ⟨e, he, hf⟩
    simp [metadata_get_set, otruthy, hnm]
  · rintro ⟨e, he, hf⟩
    simp at he
    subst he
    exact absurd hf (by simp)

theorem jsonLdPub_spec (md : Metadata) (fields : List (String × Json)) :
    jsonLdPub md fields = (md, []) ∨
    (∃ v : Json, v.truthy = true ∧ otruthy (md.get .published) = false ∧
      jsonLdPub md fields = (md.set .published v, [⟨.jsonLd, .published, v⟩])) := by
  cases hd : dictGet fields "datePublished" with
  | none => exact Or.inl (by simp [jsonLdPub, hd])
  | some v =>
    by_cases hg : (!otruthy (md.get .published) && v.truthy) = true
    · refine Or.inr ⟨v, ?_, ?_, ?_⟩
      · exact ((Bool.and_eq_true _ _).mp hg).2
      · exact bnot_true ((Bool.and_eq_true _ _).mp hg).1
      · simp [jsonLdPub, hd, hg]
    · exact Or.inl (by simp [jsonLdPub, hd, hg])

theorem jsonLdAuthor_spec (md : Metadata) (fields : List (String × Json)) :
    jsonLdAuthor md fields = .error .attributeError ∨
    jsonLdAuthor md fields = .ok (md, []) ∨
    (∃ nm : Json, nm.truthy = true ∧ otruthy (md.get .author) = false ∧
      jsonLdAuthor md fields = .ok (md.set .author nm, [⟨.jsonLd, .author, nm⟩])) := by
  cases hd : dictGet fields "author" with
  | none => exact Or.inr (Or.inl (by simp [jsonLdAuthor, hd]))
  | some a =>
    by_cases hg : (!otruthy (md.get .author) && a.truthy) = true
    · have hA : otruthy (md.get .author) = false :=
        bnot_true ((Bool.and_eq_true _ _).mp hg).1
      cases a with
      | obj af =>
        cases hn : dictGet af "name" with
        | none => exact Or.inr (Or.inl (by simp [jsonLdAuthor, hd, hg, hn]))
        | some nm =>
          by_cases ht : nm.truthy = true
          · exact Or.inr (Or.inr ⟨nm, ht, hA, by simp [jsonLdAuthor, hd, hg, hn, ht]⟩)
          · exact Or.inr (Or.inl (by simp [jsonLdAuthor, hd, hg, hn, ht]))
      | arr xs =>
        cases xs with
        | nil => exact Or.inr (Or.inl (by simp [jsonLdAuthor, hd, hg]))
        | cons x rest =>
          cases x with
          | obj xf =>
            cases hn : dictGet xf "name" with
            | none => exact Or.inr (Or.inl (by simp [jsonLdAuthor, hd, hg, hn]))
            | some nm =>
              by_cases ht : nm.truthy = true
              · exact Or.inr (Or.inr ⟨nm, ht, hA, by simp [jsonLdAuthor, hd, hg, hn, ht]⟩)
              · exact Or.inr (Or.inl (by simp [jsonLdAuthor, hd, hg, hn, ht]))
          | null => exact Or.inl (by simp [jsonLdAuthor, hd, hg])
          | bool b => exact Or.inl (by simp [jsonLdAuthor, hd, hg])
          | num n => exact Or.inl (by simp [jsonLdAuthor, hd, hg])
          | str s2 => exact Or.inl (by simp [jsonLdAuthor, hd, hg])
          | arr ys => exact Or.inl (by simp [jsonLdAuthor, hd, hg])
      | null => exact Or.inr (Or.inl (by simp [jsonLdAuthor, hd, hg]))
      | bool b => exact Or.inr (Or.inl (by simp [jsonLdAuthor, hd, hg]))
      | num n => exact Or.inr (Or.inl (by simp [jsonLdAuthor, hd, hg]))
      | str s2 => exact Or.inr (Or.inl (by simp [jsonLdAuthor, hd, hg]))
    · exact Or.inr (Or.inl (by simp [jsonLdAuthor, hd, hg]))

theorem jsonLdItem_inv (md : Metadata) (item : Json) (md2 : Metadata) (d : List Event)
    (h : jsonLdItem md item = .ok (md2, d)) : JsonLdInv md md2 d := by
  cases item with
  | obj fields =>
    rcases jsonLdPub_spec md fields with hp | ⟨v, hv, hpub, hp⟩
    · rcases jsonLdAuthor_spec (jsonLdPub md fields).1 fields with ha | ha | ⟨nm, hnm, hauth, ha⟩
      · rw [hp] at ha
        simp only [jsonLdItem, hp, ha] at h
        exact absurd h (by simp)
      · rw [hp] at ha
        simp only [jsonLdItem, hp, ha, Except.ok.injEq, Prod.mk.injEq] at h
        obtain ⟨rfl, rfl⟩ := h
        simpa using jsonLdInv_refl md
      · rw [hp] at hauth ha
        simp only [jsonLdItem, hp, ha, Except.ok.injEq, Prod.mk.injEq] at h
        obtain ⟨rfl, rfl⟩ := h
        simpa using jsonLdInv_auth md nm hnm hauth
    · rcases jsonLdAuthor_spec (jsonLdPub md fields).1 fields with ha | ha | ⟨nm, hnm, hauth, ha⟩
      · rw [hp] at ha
        simp only [jsonLdItem, hp, ha] at h
        exact absurd h (by simp)
      · rw [hp] at ha
        simp only [jsonLdItem, hp, ha, Except.ok.injEq, Prod.mk.injEq] at h
        obtain ⟨rfl, rfl⟩ := h
        simpa using jsonLdInv_pub md v hv hpub
      · rw [hp] at hauth ha
        simp only [jsonLdItem, hp, ha, Except.ok.injEq, Prod.mk.injEq] at h
        obtain ⟨rfl, rfl⟩ := h
        have hcomp := jsonLdInv_comp md (md.set .published v) ((md.set .published v).set .author nm)
          [⟨.jsonLd, .published, v⟩] [⟨.jsonLd, .author, nm⟩]
          (jsonLdInv_pub md v hv hpub) (jsonLdInv_auth (md.set .published v) nm hnm hauth)
        simpa using hcomp
  | null =>
    simp only [jsonLdItem, Except.ok.injEq, Prod.mk.injEq] at h
    obtain ⟨rfl, rfl⟩ := h
    exact jsonLdInv_refl md
  | bool b =>
    simp only [jsonLdItem, Except.ok.injEq, Prod.mk.injEq] at h
    obtain ⟨rfl, rfl⟩ := h
    exact jsonLdInv_refl md
  | num n =>
    simp only [jsonLdItem, Except.ok.injEq, Prod.mk.injEq] at h
    obtain ⟨rfl, rfl⟩ := h
    exact jsonLdInv_refl md
  | str s =>
    simp only [jsonLdItem, Except.ok.injEq, Prod.mk.injEq] at h
    obtain ⟨rfl, rfl⟩ := h
    exact jsonLdInv_refl md
  | arr xs =>
    simp only [jsonLdItem, Except.ok.injEq, Prod.mk.injEq] at h
    obtain ⟨rfl, rfl⟩ := h
    exact jsonLdInv_refl md

theorem jsonLdItems_inv : ∀ (items : List Json) (md md2 : Metadata) (d : List Event),
    jsonLdItems md items = .ok (md2, d) → JsonLdInv md md2 d := by
  intro items
  induction items with
  | nil =>
    intro md md2 d h
    simp only [jsonLdItems, Except.ok.injEq, Prod.mk.injEq] at h
    obtain ⟨rfl, rfl⟩ := h
    exact jsonLdInv_refl md
  | cons it rest ih =>
    intro md md2 d h
    cases h1 : jsonLdItem md it with
    | error e => simp [jsonLdItems, h1] at h
    | ok r =>
      obtain ⟨mdA, dA⟩ := r
      cases h2 : jsonLdItems mdA rest with
      | error e => simp [jsonLdItems, h1, h2] at h
      | ok r2 =>
        obtain ⟨mdB, dB⟩ := r2
        simp only [jsonLdItems, h1, h2, Except.ok.injEq, Prod.mk.injEq] at h
        obtain ⟨rfl, rfl⟩ := h
        exact jsonLdInv_comp md mdA mdB dA dB (jsonLdItem_inv md it mdA dA h1) (ih mdA mdB dB h2)

theorem jsonLdScript_inv (md : Metadata) (sc : Option Json) (md2 : Metadata) (d : List Event)
    (h : jsonLdScript md sc = .ok (md2, d)) : JsonLdInv md md2 d := by
  cases sc with
  | none =>
    simp only [jsonLdScript, Except.ok.injEq, Prod.mk.injEq] at h
    obtain ⟨rfl, rfl⟩ := h
    exact jsonLdInv_refl md
  | some j =>
    exact jsonLdItems_inv _ md md2 d h

theorem jsonLdScripts_inv : ∀ (scs : List (Option Json)) (md md2 : Metadata) (d : List Event),
    jsonLdScripts md scs = .ok (md2, d) → JsonLdInv md md2 d := by
  intro scs
  induction scs with
  | nil =>
    intro md md2 d h
    simp only [jsonLdScripts, Except.ok.injEq, Prod.mk.injEq] at h
    obtain ⟨rfl, rfl⟩ := h
    exact jsonLdInv_refl md
  | cons sc rest ih =>
    intro md md2 d h
    cases h1 : jsonLdScript md sc with
    | error e => simp [jsonLdScripts, h1] at h
    | ok r =>
      obtain ⟨mdA, dA⟩ := r
      cases h2 : jsonLdScripts mdA rest with
      | error e => simp [jsonLdScripts, h1, h2] at h
      | ok r2 =>
        obtain ⟨mdB, dB⟩ := r2
        simp only [jsonLdScripts, h1, h2, Except.ok.injEq, Prod.mk.injEq] at h
        obtain ⟨rfl, rfl⟩ := h
        exact jsonLdInv_comp md mdA mdB dA dB (jsonLdScript_inv md sc mdA dA h1) (ih mdA mdB dB h2)

/-! ## Helper lemmas: head metadata, WeChat, title fallback, Readability -/

theorem headRuleStep_acc (s : Soup) (acc : Metadata × List Event) (rule : MField × String × String)
    (hk : rule.1 = MField.description ∨ rule.1 = MField.site_name) (h : HeadAcc acc) :
    HeadAcc (headRuleStep s acc rule) := by
  unfold headRuleStep
  split
  · exact h
  · split
    · exact h
    · split
      · exact h
      · split
        · exact h
        · refine ⟨?_, ?_, ?_, ?_⟩
          · intro e he
            rw [List.mem_append] at he
            rcases he with he | he
            · exact h.1 e he
            · simp at he
              subst he
              exact ⟨rfl, hk⟩
          · rcases hk with hk | hk <;> rw [hk] <;> simp [metadata_get_set] <;> exact h.2.1
          · rcases hk with hk | hk <;> rw [hk] <;> simp [metadata_get_set] <;> exact h.2.2.1
          · rcases hk with hk | hk <;> rw [hk] <;> simp [metadata_get_set] <;> exact h.2.2.2

theorem head_fold_acc (s : Soup) : ∀ (rules : List (MField × String × String)),
    (∀ r ∈ rules, r.1 = MField.description ∨ r.1 = MField.site_name) →
    ∀ acc, HeadAcc acc → HeadAcc (rules.foldl (headRuleStep s) acc) := by
  intro rules
  induction rules with
  | nil => intro _ acc h; exact h
  | cons r rest ih =>
    intro hr acc h
    simp only [List.foldl]
    exact ih (fun a ha => hr a (by simp [ha])) _ (headRuleStep_acc s acc r (hr r (by simp)) h)

theorem head_acc (s : Soup) : HeadAcc (_extract_head_metadata s) :=
  head_fold_acc s headRules (by decide) (emptyMetadata, []) ⟨by simp, rfl, rfl, rfl⟩

theorem wechatOverrides_events (s : Soup) (md : Metadata) :
    ∀ e ∈ (wechatOverrides s md).2,
      e.src = MSource.siteSpecific ∧
      (e.fld = MField.title ∨ e.fld = MField.author ∨ e.fld = MField.published) := by
  unfold wechatOverrides
  cases s.selectOne "h1#activity-name" <;> cases s.selectOne "#js_name" <;>
    cases s.selectOne "em#publish_time" <;> simp

theorem titleFallback_events (s : Soup) (md : Metadata) :
    ∀ e ∈ (titleFallbackStep s md).2,
      e.src = MSource.titleFallback ∧ e.fld = MField.title := by
  intro e he
  unfold titleFallbackStep at he
  split at he
  · split at he
    · simp at he
      subst he
      exact ⟨rfl, rfl⟩
    · simp at he
  · simp at he

theorem readabilityTail_trace (doc : ReadabilityDoc) (md : Metadata) (ev : List Event) :
    (readabilityTail doc md ev).2.2 =
      (if !otruthy (md.get .author) then
        ev ++ [⟨.readabilityFb, .author, .str (doc.byline.getD "")⟩]
       else ev) := by
  unfold readabilityTail
  cases doc.summary <;> split <;> simp_all

theorem readability_events (p : Html) (md : Metadata) :
    ∀ e ∈ (readabilityStage p md).2.2,
      e.src = MSource.readabilityFb ∧ (e.fld = MField.title ∨ e.fld = MField.author) ∧
      (e.fld = MField.author → otruthy (md.get .author) = false) := by
  intro e he
  unfold readabilityStage at he
  split at he
  · simp at he
  · split at he
    · split at he
      · simp at he
      · rw [readabilityTail_trace] at he
        split at he
        · rename_i hg
          simp only [metadata_get_set] at hg
          simp only [List.cons_append, List.nil_append, List.mem_cons] at he
          rcases he with rfl | he
          · exact ⟨rfl, Or.inl rfl, by simp⟩
          · simp at he
            subst he
            refine ⟨rfl, Or.inr rfl, fun _ => ?_⟩
            have hb := bnot_true hg
            simpa using hb
        · simp at he
          subst he
          exact ⟨rfl, Or.inl rfl, by simp⟩
    · rw [readabilityTail_trace] at he
      split at he
      · rename_i hg
        simp only [List.nil_append, List.mem_singleton] at he
        subst he
        refine ⟨rfl, Or.inr rfl, fun _ => bnot_true hg⟩
      · simp at he

/-! ## Helper lemmas: the monotonic-priority trace invariant -/

theorem eventOK_of_ne_fld (e e2 : Event) (h : e.fld ≠ e2.fld) : eventOK e e2 = true := by
  simp [eventOK, h]

theorem eventOK_of_le (e e2 : Event) (h : priorityOf e2.src ≤ priorityOf e.src) :
    eventOK e e2 = true := by
  simp [eventOK, h]

theorem noLower_append (xs ys : List Event)
    (hx : noLowerAfterHigherB xs = true) (hy : noLowerAfterHigherB ys = true)
    (hc : ∀ x ∈ xs, ∀ y ∈ ys, eventOK x y = true) :
    noLowerAfterHigherB (xs ++ ys) = true := by
  induction xs with
  | nil => simpa using hy
  | cons x xs ih =>
    simp only [noLowerAfterHigherB, List.all_eq_true, Bool.and_eq_true] at hx ⊢
    refine ⟨?_, ?_⟩
    · intro y hyy
      rcases List.mem_append.mp (show y ∈ xs ++ ys from hyy) with hyy2 | hyy2
      · exact hx.1 y hyy2
      · exact hc x (by simp) y hyy2
    · exact ih hx.2 (fun a ha => hc a (by simp [ha]))

theorem noLower_uniform (xs : List Event) (σ : MSource) (h : ∀ e ∈ xs, e.src = σ) :
    noLowerAfterHigherB xs = true := by
  induction xs with
  | nil => rfl
  | cons x xs ih =>
    simp only [noLowerAfterHigherB, List.all_eq_true, Bool.and_eq_true]
    refine ⟨?_, ih (fun a ha => h a (by simp [ha]))⟩
    intro y hy
    apply eventOK_of_le
    rw [h x (by simp), h y (by simp [hy])]

/-! ## Helper lemmas: content-root characterization -/

theorem readabilityStage_content (p : Html) (md : Metadata)
    (hmd : otruthy (md.get .title) = false) :
    (readabilityStage p md).1 = genericFallbackContent p := by
  unfold readabilityStage genericFallbackContent
  cases p.readability with
  | none => rfl
  | some doc =>
    simp only [hmd, Bool.not_false, if_true]
    cases doc.title with
    | none => rfl
    | some t =>
      cases hs : doc.summary with
      | none => simp [readabilityTail, hs]
      | some el => simp [readabilityTail, hs]

theorem generic_content (p : Html) (c : Option Element) (md : Metadata) (tr : List Event)
    (h : _process_generic_html p = .ok (c, md, tr)) :
    c = (match firstCandidate p.soup with
         | some el => some el
         | none => genericFallbackContent p) := by
  unfold _process_generic_html at h
  dsimp only at h
  cases hj : jsonLdScripts (_extract_head_metadata p.soup).1 p.soup.jsonLd with
  | error e => rw [hj] at h; simp at h
  | ok r =>
    obtain ⟨md1, ev1⟩ := r
    rw [hj] at h
    have hinv := jsonLdScripts_inv p.soup.jsonLd (_extract_head_metadata p.soup).1 md1 ev1 hj
    have htitle : otruthy (md1.get .title) = false := by
      have h1 : md1.get .title = (_extract_head_metadata p.soup).1.get .title := hinv.2.2.1.1
      rw [h1, (head_acc p.soup).2.1]
      rfl
    cases hcand : firstCandidate p.soup with
    | some el =>
      rw [hcand] at h
      simp only [Except.ok.injEq, Prod.mk.injEq] at h
      simpa using h.1.symm
    | none =>
      rw [hcand] at h
      simp only [Except.ok.injEq, Prod.mk.injEq] at h
      have hr := readabilityStage_content p md1 htitle
      rw [← h.1, hr]

/-! ## Helper lemmas: scroll loop bounds -/

theorem scrollLoop_le (pg : ScrollPage) :
    ∀ (n scrolls stuck y : Nat), 100 - scrolls ≤ n → scrolls ≤ 100 →
      scrollLoop pg scrolls stuck y ≤ 100 := by
  intro n
  induction n with
  | zero =>
    intro scrolls stuck y hn hs
    unfold scrollLoop
    rw [dif_neg (by omega)]
    exact hs
  | succ n ih =>
    intro scrolls stuck y hn hs
    unfold scrollLoop
    by_cases hcond : scrolls < 100 ∧ stuck < 5
    · rw [dif_pos hcond]
      dsimp only
      split
      · omega
      · exact ih (scrolls + 1) _ _ (by omega) (by omega)
    · rw [dif_neg hcond]
      exact hs

theorem scrollLoop_stall (pg : ScrollPage) (hstep : ∀ y, pg.step y = y) :
    ∀ (n scrolls stuck y : Nat), 5 - stuck ≤ n →
      scrollLoop pg scrolls stuck y ≤ scrolls + (5 - stuck) := by
  intro n
  induction n with
  | zero =>
    intro scrolls stuck y hn
    unfold scrollLoop
    rw [dif_neg (by omega)]
    omega
  | succ n ih =>
    intro scrolls stuck y hn
    unfold scrollLoop
    by_cases hcond : scrolls < 100 ∧ stuck < 5
    · rw [dif_pos hcond]
      dsimp only
      split
      · omega
      · rw [hstep y, if_pos rfl]
        have := ih (scrolls + 1) (stuck + 1) y (by omega)
        omega
    · rw [dif_neg hcond]
      omega

/-! ## Claims -/

/-- Claim C1, counterexample.  The claim states that when the WeChat
site-specific rule fails to locate a content root, the candidate-selector
and Readability stages are still attempted before extraction fails.  On
this concrete input the URL contains the platform domain, `#js_content` is
absent, the generic cascade would succeed via the `article` candidate
selector — yet the conversion fails, because the dispatch is exclusive and
never runs the generic stages for a WeChat URL. -/
theorem C1_counterexample :
    strContains c1Url wechatDomain = true ∧
    c1Page.soup.selectOne "#js_content" = none ∧
    _process_generic_html c1Page = .ok (some c1Article, emptyMetadata, []) ∧
    convert_html_to_markdown c1Page c1Url = .ok none :=
  ⟨rfl, rfl, rfl, rfl⟩

/-- Claim C1, amended.  The dispatch is exclusive: for a URL containing
the WeChat platform domain only the WeChat handler runs, and its
`#js_content` lookup alone decides the content root (a failure is final —
no later stage is attempted); for all other URLs the fixed candidate
selector list is tried first and Readability-style extraction is attempted
only when no candidate matched; extraction fails for the URL exactly when
the selected content root is `none`. -/
theorem C1_amended : ∀ (p : Html) (u : String) (c : Option Element) (md : Metadata)
    (tr : List Event), convertCore p u = .ok (c, md, tr) →
    (strContains u wechatDomain = true → c = p.soup.selectOne "#js_content") ∧
    (strContains u wechatDomain = false →
      c = (match firstCandidate p.soup with
           | some el => some el
           | none => genericFallbackContent p)) ∧
    (convert_html_to_markdown p u = .ok none ↔ c = none) := by
  intro p u c md tr h
  refine ⟨?_, ?_, ?_⟩
  · intro hw
    unfold convertCore at h
    rw [if_pos hw] at h
    simp only [Except.ok.injEq] at h
    have := congrArg Prod.fst h
    simpa using this.symm
  · intro hw
    unfold convertCore at h
    rw [if_neg (by simp [hw])] at h
    exact generic_content p c md tr h
  · unfold convert_html_to_markdown
    rw [h]
    cases c with
    | none => simp
    | some el => simp

/-- Claim C1, amended, witness at the concrete WeChat counterexample page:
the chosen root is the WeChat handler's (absent) `#js_content` and the
conversion reports failure. -/
theorem C1_amended_witness :
    ((none : Option Element) = c1Page.soup.selectOne "#js_content") ∧
    convert_html_to_markdown c1Page c1Url = .ok none := by
  have h := C1_amended c1Page c1Url none emptyMetadata [] rfl
  exact ⟨h.1 rfl, h.2.2.mpr rfl⟩

/-- Claim C2 (code bug).  A batch whose first URL's page carries a JSON-LD
block with `author` given as a list of strings makes the run terminate
with an uncaught `AttributeError` (`author_data[0].get` on a `str`; the
`except` clause catches only `JSONDecodeError` and `TypeError`, and
`main`'s loop has no per-URL exception handler), so the following good URL
is never processed — while the same good URL alone converts and is
written.  This contradicts the claimed per-URL failure isolation. -/
theorem C2_unhandled_author_list :
    mainBatchLoop c2Clock c2IsDir none 0
        [(c2BadUrl, some c2BadPage), (c2GoodUrl, some c2GoodPage)] =
      .error .attributeError ∧
    mainBatchLoop c2Clock c2IsDir none 0 [(c2GoodUrl, some c2GoodPage)] =
      .ok [("Good.md", c2GoodContent)] :=
  ⟨rfl, rfl⟩

/-- Claim C3.  For every page and URL on which the harvest completes
without an exception, the trace of metadata writes satisfies the
monotonic-priority invariant: no field already set to a truthy value is
written later by a strictly lower-priority source (site-specific DOM
landmarks > JSON-LD > head meta > title-tag fallback > Readability
fallback). -/
theorem C3_monotonic_priority : ∀ (p : Html) (u : String) (c : Option Element)
    (md : Metadata) (tr : List Event),
    convertCore p u = .ok (c, md, tr) → noLowerAfterHigherB tr = true := by
  intro p u c md tr h
  unfold convertCore at h
  split at h
  · -- WeChat handler: head-meta events then site-specific overrides
    simp only [_process_wechat_html, Except.ok.injEq, Prod.mk.injEq] at h
    obtain ⟨-, -, htr⟩ := h
    subst htr
    apply noLower_append
    · exact noLower_uniform _ MSource.headMeta (fun e he => ((head_acc p.soup).1 e he).1)
    · exact noLower_uniform _ MSource.siteSpecific (fun e he => (wechatOverrides_events _ _ e he).1)
    · intro x hx y hy
      apply eventOK_of_ne_fld
      have hfx := ((head_acc p.soup).1 x hx).2
      have hfy := (wechatOverrides_events _ _ y hy).2
      rcases hfx with h1 | h1 <;> rcases hfy with h2 | h2 | h2 <;> rw [h1, h2] <;> decide
  · -- generic handler: head-meta, JSON-LD, then candidate title fallback
    -- or Readability
    unfold _process_generic_html at h
    dsimp only at h
    cases hj : jsonLdScripts (_extract_head_metadata p.soup).1 p.soup.jsonLd with
    | error e => rw [hj] at h; simp at h
    | ok r =>
      obtain ⟨md1, ev1⟩ := r
      rw [hj] at h
      have hinv := jsonLdScripts_inv p.soup.jsonLd (_extract_head_metadata p.soup).1 md1 ev1 hj
      cases hcand : firstCandidate p.soup with
      | some el =>
        rw [hcand] at h
        simp only [Except.ok.injEq, Prod.mk.injEq] at h
        obtain ⟨-, -, htr⟩ := h
        subst htr
        apply noLower_append
        · apply noLower_append
          · exact noLower_uniform _ MSource.headMeta (fun e he => ((head_acc p.soup).1 e he).1)
          · exact noLower_uniform _ MSource.jsonLd (fun e he => (hinv.1 e he).1)
          · intro x hx y hy
            apply eventOK_of_ne_fld
            have hfx := ((head_acc p.soup).1 x hx).2
            have hfy := (hinv.1 y hy).2.1
            rcases hfx with h1 | h1 <;> rcases hfy with h2 | h2 <;> rw [h1, h2] <;> decide
        · exact noLower_uniform _ MSource.titleFallback
            (fun e he => (titleFallback_events _ _ e he).1)
        · intro x hx y hy
          apply eventOK_of_ne_fld
          have hfy := (titleFallback_events _ _ y hy).2
          rcases List.mem_append.mp (show x ∈ _ ++ _ from hx) with hx2 | hx2
          · have hfx := ((head_acc p.soup).1 x hx2).2
            rcases hfx with h1 | h1 <;> rw [h1, hfy] <;> decide
          · have hfx := (hinv.1 x hx2).2.1
            rcases hfx with h1 | h1 <;> rw [h1, hfy] <;> decide
      | none =>
        rw [hcand] at h
        simp only [Except.ok.injEq, Prod.mk.injEq] at h
        obtain ⟨-, -, htr⟩ := h
        subst htr
        apply noLower_append
        · apply noLower_append
          · exact noLower_uniform _ MSource.headMeta (fun e he => ((head_acc p.soup).1 e he).1)
          · exact noLower_uniform _ MSource.jsonLd (fun e he => (hinv.1 e he).1)
          · intro x hx y hy
            apply eventOK_of_ne_fld
            have hfx := ((head_acc p.soup).1 x hx).2
            have hfy := (hinv.1 y hy).2.1
            rcases hfx with h1 | h1 <;> rcases hfy with h2 | h2 <;> rw [h1, h2] <;> decide
        · exact noLower_uniform _ MSource.readabilityFb
            (fun e he => (readability_events p md1 e he).1)
        · intro x hx y hy
          have hfy := (readability_events p md1 y hy).2
          rcases hfy.1 with h2 | h2
          · apply eventOK_of_ne_fld
            rcases List.mem_append.mp (show x ∈ _ ++ _ from hx) with hx2 | hx2
            · have hfx := ((head_acc p.soup).1 x hx2).2
              rcases hfx with h1 | h1 <;> rw [h1, h2] <;> decide
            · have hfx := (hinv.1 x hx2).2.1
              rcases hfx with h1 | h1 <;> rw [h1, h2] <;> decide
          · have hmd1 : otruthy (md1.get .author) = false := hfy.2 h2
            rcases List.mem_append.mp (show x ∈ _ ++ _ from hx) with hx2 | hx2
            · apply eventOK_of_ne_fld
              have hfx := ((head_acc p.soup).1 x hx2).2
              rcases hfx with h1 | h1 <;> rw [h1, h2] <;> decide
            · have hfx := (hinv.1 x hx2).2.1
              rcases hfx with h1 | h1
              · apply eventOK_of_ne_fld
                rw [h1, h2]
                decide
              · exfalso
                have htru : otruthy (md1.get .author) = true :=
                  hinv.2.2.2.1 ⟨x, hx2, h1⟩
                rw [hmd1] at htru
                exact absurd htru (by simp)

/-- Claim C3, witness: on the `og:site_name` page the harvest completes
with the single head-meta write event and the trace satisfies the
invariant. -/
theorem C3_witness : noLowerAfterHigherB c3Trace = true :=
  C3_monotonic_priority c3Page c3Url none c3Md c3Trace rfl

/-- Claim C4.  Image normalization maps every `<img>` of the extracted
subtree through `postProcessImg`, and for every image whose `src` is a
relative reference (protocol-relative or path-relative, i.e. without a
scheme) or whose real source is carried in a lazy-load attribute
(`data-src`, or `data-original` in its absence), the resulting `src`
equals the standard URL-join of that value against the page URL. -/
theorem C4_image_normalization :
    (∀ (e : Element) (url : String),
      (_post_process_content e url).imgs = e.imgs.map (postProcessImg url)) ∧
    (∀ (url : String) (img : AttrMap) (v : String),
      (aget img "data-src" = some v ∨
       (aget img "data-src" = none ∧ aget img "data-original" = some v) ∨
       (aget img "data-src" = none ∧ aget img "data-original" = none ∧
        aget img "src" = some v ∧ splitSchemeList v.data = none)) →
      aget (postProcessImg url img) "src" = some (urljoin url v)) := by
  constructor
  · intro e url
    rfl
  · intro url img v hcase
    rcases hcase with h1 | ⟨h0, h1⟩ | ⟨h0, h0b, h1, -⟩
    · exact absolutizeSrc_src url _ v (promote_datasrc img v h1)
    · exact absolutizeSrc_src url _ v (promote_dataoriginal img v h0 h1)
    · have hp := promote_id img h0 h0b
      show aget (absolutizeSrc url (promoteLazyAttrs img)) "src" = some (urljoin url v)
      rw [hp]
      exact absolutizeSrc_src url img v h1

/-- Claim C4, witness: the spec's scenario — `<img data-src="/img/a.png">`
on page `https://ex.com/post` normalizes to
`src="https://ex.com/img/a.png"`. -/
theorem C4_witness :
    aget (postProcessImg c4Url c4Img) "src" = some "https://ex.com/img/a.png" := by
  have h := C4_image_normalization.2 c4Url c4Img "/img/a.png" (Or.inl rfl)
  rw [h]
  rfl

/-- Claim C5.  The extraction-and-conversion step is a deterministic
function of the page and the URL: two runs on identical inputs produce
identical results (Markdown text and metadata record alike).  In this
embedding the pipeline takes no clock or randomness — the timestamp enters
only at front-matter assembly, outside `convert_html_to_markdown`. -/
theorem C5_deterministic_conversion : ∀ (p1 p2 : Html) (u1 u2 : String),
    p1 = p2 → u1 = u2 →
    convert_html_to_markdown p1 u1 = convert_html_to_markdown p2 u2 := by
  intro p1 p2 u1 u2 h1 h2
  rw [h1, h2]

/-- Claim C5, witness at a concrete page and URL. -/
theorem C5_witness :
    convert_html_to_markdown c5Page c5Url = convert_html_to_markdown c5Page c5Url :=
  C5_deterministic_conversion c5Page c5Page c5Url c5Url rfl rfl

/-- Claim C6.  The URL batch extracted from a file never contains
duplicates (Python `list(set(urls))` semantics; iteration order is not
guaranteed), and a file containing the same URL twice yields exactly one
entry. -/
theorem C6_dedup :
    (∀ content : String, (_extract_urls_from_file content).Nodup) ∧
    _extract_urls_from_file c6File = ["https://a.com/x"] :=
  ⟨fun _ => List.nodup_dedup _, rfl⟩

/-- Claim C7.  For every successful conversion, the written document is
the front-matter block, then the fixed placeholder section, then the
Markdown body; the front matter carries exactly the keys note_type,
content_type, created, published, source, author, description, site_name
in that order; missing metadata fields serialize as empty strings, never
omitted; and the block is delimited by `---` lines. -/
theorem C7_front_matter :
    (∀ (clock : Nat → String) (isDir : String → Bool) (out : Option String) (url : String)
       (page : Html) (mdText : String) (md : Metadata),
      convert_html_to_markdown page url = .ok (some (mdText, md)) →
      mainBatchLoop clock isDir out 0 [(url, some page)] =
        .ok [(outputPathOf isDir out (pageTitleArg md),
              _create_front_matter md url (clock 0) ++ SUMMARY_TEMPLATE ++ mdText)]) ∧
    (∀ (md : Metadata) (url now : String), (frontMatterData md url now).map Prod.fst =
      ["note_type", "content_type", "created", "published", "source", "author",
       "description", "site_name"]) ∧
    (∀ url now : String, (frontMatterData emptyMetadata url now).map Prod.snd =
      ["文献笔记", "新闻报道", now, "", url, "", "", ""]) ∧
    _create_front_matter emptyMetadata "https://e.com/a" "2026-01-01T00:00:00" =
      "---\nnote_type: 文献笔记\ncontent_type: 新闻报道\ncreated: 2026-01-01T00:00:00\npublished: \nsource: https://e.com/a\nauthor: \ndescription: \nsite_name: \n---" := by
  refine ⟨?_, ?_, ?_, ?_⟩
  · intro clock isDir out url page mdText md hconv
    unfold mainBatchLoop
    dsimp only
    rw [hconv]
    rfl
  · intro md url now
    rfl
  · intro url now
    rfl
  · rfl

/-- Claim C7, witness: a page converting with an empty metadata record is
written under the default title with the fully assembled document. -/
theorem C7_witness :
    mainBatchLoop (fun _ => "T7") (fun _ => false) none 0 [(c7Url, some c7Page)] =
      .ok [(outputPathOf (fun _ => false) none (pageTitleArg emptyMetadata),
            _create_front_matter emptyMetadata c7Url "T7" ++ SUMMARY_TEMPLATE ++ "<p>c7</p>")] :=
  C7_front_matter.1 (fun _ => "T7") (fun _ => false) none c7Url c7Page "<p>c7</p>"
    emptyMetadata rfl

/-- Claim C8.  The injected scroll loop terminates within the stall bound
(5 consecutive unchanged-position iterations) on a page whose scroll
position never changes, and in every case within the maximum
scroll-iteration count of 100 — never indefinitely (the loop is a total
function). -/
theorem C8_scroll_termination :
    (∀ (pg : ScrollPage) (y0 : Nat), (∀ y, pg.step y = y) → scrollSimulation pg y0 ≤ 5) ∧
    (∀ (pg : ScrollPage) (y0 : Nat), scrollSimulation pg y0 ≤ 100) := by
  constructor
  · intro pg y0 hstep
    have h := scrollLoop_stall pg hstep 5 0 0 y0 (by omega)
    simpa [scrollSimulation] using h
  · intro pg y0
    have h := scrollLoop_le pg 100 0 0 y0 (by omega) (by omega)
    simpa [scrollSimulation] using h

/-- Claim C8, witness: on a page whose position never moves, the
simulation stops within 5 iterations. -/
theorem C8_witness : scrollSimulation c8Page 0 ≤ 5 :=
  C8_scroll_termination.1 c8Page 0 (fun _ => rfl)

/-- Claim C9.  When the metadata record has no title and no output path
was supplied, the page title defaults to the constant `Untitled`,
sanitization appends `.md`, and the document is written to the bare
filename `Untitled.md`, i.e. into the current working directory. -/
theorem C9_untitled_default : ∀ (md : Metadata) (isDir : String → Bool),
    md.get .title = none →
    outputPathOf isDir none (pageTitleArg md) = "Untitled.md" := by
  intro md isDir h
  unfold pageTitleArg
  rw [h]
  rfl

/-- Claim C9, witness at the empty metadata record. -/
theorem C9_witness :
    outputPathOf (fun _ => false) none (pageTitleArg emptyMetadata) = "Untitled.md" :=
  C9_untitled_default emptyMetadata (fun _ => false) rfl

/-- Claim C10.  For an image carrying both lazy-load attributes,
normalization promotes the `data-src` value into `src` (joined against
the page URL unless already absolute) and deletes only the `data-src`
attribute; `data-original` is left in place with its original value. -/
theorem C10_lazy_attrs : ∀ (url : String) (img : AttrMap) (v w : String),
    aget img "data-src" = some v → aget img "data-original" = some w →
    aget (postProcessImg url img) "data-src" = none ∧
    aget (postProcessImg url img) "data-original" = some w ∧
    aget (postProcessImg url img) "src" = some (urljoin url v) := by
  intro url img v w h1 h2
  have hpro : promoteLazyAttrs img = adel (aset img "src" v) "data-src" := by
    simp only [promoteLazyAttrs, h1]
  refine ⟨?_, ?_, ?_⟩
  · show aget (absolutizeSrc url (promoteLazyAttrs img)) "data-src" = none
    rw [absolutizeSrc_other url _ _ (by decide), hpro, aget_adel_self]
  · show aget (absolutizeSrc url (promoteLazyAttrs img)) "data-original" = some w
    rw [absolutizeSrc_other url _ _ (by decide), hpro,
        aget_adel_ne _ _ _ (by decide), aget_aset_ne _ _ _ _ (by decide), h2]
  · exact absolutizeSrc_src url _ v (promote_datasrc img v h1)

/-- Claim C10, witness: a protocol-relative `data-src` is promoted and
joined, the placeholder `src` is overwritten, and `data-original`
survives untouched. -/
theorem C10_witness :
    aget (postProcessImg c10Url c10Img) "data-src" = none ∧
    aget (postProcessImg c10Url c10Img) "data-original" = some "/b.png" ∧
    aget (postProcessImg c10Url c10Img) "src" = some "https://cdn.ex.com/a.png" := by
  have h := C10_lazy_attrs c10Url c10Img "//cdn.ex.com/a.png" "/b.png" rfl rfl
  refine ⟨h.1, h.2.1, ?_⟩
  rw [h.2.2]
  rfl
